import Mathlib

/-!
# kubeversion-exporter: registry resolution, version decision and metric publication

A shallow embedding of `pkg/docker/docker.go` and `pkg/exporter/exporter.go`.

* Go strings are Lean `String`s; `strings.Split` with a one-byte separator is `Split`
  (the separators used, `/` and `:`, are ASCII, so splitting bytes and splitting
  characters agree).
* The third-party packages are parameters: `VersionLib` is `github.com/mcuadros/go-version`
  (`Normalize`, `Compare`, `Sort`), `Registry` is the docker registry client
  (`registry.NewCustom` followed by `hub.Tags`).
* The Kubernetes client and the GitHub release request are passed as their outcomes
  (`Except String _`); the answer to the release request is a `Response`, its status code
  together with what decoding its body gives.
* Gauges hold `float64` values that are only ever `0`, `1`, a slice length, or a count of
  `Inc()` calls, so they are modelled by `Nat`.
* A `GaugeVec` is a finite map from label sets to values, modelled as a function
  `Labels → Option Nat`.
-/

namespace KubeVersion

/-! ## Go string helpers -/

/-- Pieces of a character list between the occurrences of `sep`; the result always has
one more piece than there are separators. -/
def splitChars (sep : Char) : List Char → List (List Char)
  | [] => [[]]
  | c :: cs =>
    if c = sep then [] :: splitChars sep cs
    else
      match splitChars sep cs with
      | [] => [[c]]
      | p :: ps => (c :: p) :: ps

/-- Go `strings.Split(s, sep)` for a separator of one character. -/
def Split (s : String) (sep : Char) : List String :=
  (splitChars sep s.data).map String.mk

/-- Go `strings.Join(parts, sep)`. -/
def Join : List String → String → String
  | [], _ => ""
  | [a], _ => a
  | a :: b :: rest, sep => a ++ sep ++ Join (b :: rest) sep

/-! ## pkg/docker/docker.go -/

/-- Errors `GetTags` can return: the package's own sentinel, or whatever the registry
client reported. -/
inductive TagsError where
  | ErrCouldNotGetRegAndRepo
  | registry (msg : String)
  deriving DecidableEq, Repr

/-- The method `hub.Tags(repo)` of a created registry client. -/
abbrev Hub := String → Except String (List String)

/-- The constructor `registry.NewCustom(reg, opts)` of the registry client package. -/
abbrev Registry := String → Except String Hub

/-- Source: `getRegAndRepo` (docker.go 43-61). -/
def getRegAndRepo (image : String) : String × String :=
  let parts := Split image '/'
  match parts with
  | [p0] => ("https://registry-1.docker.io/", "library/" ++ p0)
  | [_, _] => ("https://registry-1.docker.io/", Join parts "/")
  | [p0, p1, p2] =>
    if p0 = "docker.io" then ("https://registry-1.docker.io/", p1 ++ "/" ++ p2)
    else ("https://" ++ p0, p1 ++ "/" ++ p2)
  | _ => ("", "")

/-- Source: `GetTags` (docker.go 18-41). -/
def GetTags (newCustom : Registry) (image : String) : Except TagsError (List String) :=
  let (reg, repo) := getRegAndRepo image
  if reg = "" ∧ repo = "" then .error .ErrCouldNotGetRegAndRepo
  else
    match newCustom reg with
    | .error e => .error (.registry e)
    | .ok hub =>
      match hub repo with
      | .error e => .error (.registry e)
      | .ok tags => .ok tags

/-! ## github.com/mcuadros/go-version (a parameter) -/

/-- The three functions of the version package the exporter calls: `version.Normalize`,
`version.Compare` and `version.Sort` (here `versionSort`, `Sort` being reserved). `Sort`
works in place on the slice it is given, so whatever order it chooses the slice keeps its
length: `versionSort_length`. -/
structure VersionLib where
  Normalize : String → String
  Compare : String → String → String → Bool
  versionSort : List String → List String
  versionSort_length : ∀ tags, (versionSort tags).length = tags.length

/-! ## pkg/exporter/exporter.go -/

/-- Go `prometheus.Labels`: the label names with their values, in the order of the
literal that builds them. -/
abbrev PromLabels := List (String × String)

/-- Source: `Metric` (exporter.go 61-64). -/
structure Metric where
  Labels : PromLabels
  Status : Nat
  deriving DecidableEq, Repr

/-- Source: `compareVersions` (exporter.go 70-79). -/
def compareVersions (lib : VersionLib) (runningVersion currentVersion : String) :
    String × String × Nat :=
  let runningVersion := lib.Normalize runningVersion
  let currentVersion := lib.Normalize currentVersion
  if lib.Compare currentVersion runningVersion ">" then (runningVersion, currentVersion, 1)
  else (runningVersion, currentVersion, 0)

/-- Source: `GitHubRelease` (exporter.go 55-57). -/
structure GitHubRelease where
  TagName : String
  deriving DecidableEq, Repr

/-- What `httpClient.Do(req)` answers: the HTTP status code, and what
`json.NewDecoder(res.Body).Decode(&release)` makes of the body (a JSON object without
`tag_name`, such as GitHub's error bodies, decodes to an empty `TagName`). -/
structure Response where
  StatusCode : Nat
  decodeBody : Except String GitHubRelease

/-- Source: `clusterMetrics` (exporter.go 84-131). `getClusterVersion` is the outcome of
`client.GetClusterVersion()`, `httpDo` the outcome of `httpClient.Do(req)`. The status
code of the answer is never read. The status is the `1` or `0` of `compareVersions`; the
comment above the Go function speaks of `2` and `1`, which the code never publishes. -/
def clusterMetrics (lib : VersionLib) (getClusterVersion : Except String String)
    (httpDo : Except String Response) : Option Metric :=
  match getClusterVersion with
  | .error _ => none
  | .ok runningVersion =>
    match httpDo with
    | .error _ => none
    | .ok res =>
      match res.decodeBody with
      | .error _ => none
      | .ok release =>
        let currentVersion := lib.Normalize release.TagName
        let (runningVersion, currentVersion, status) :=
          compareVersions lib runningVersion currentVersion
        some { Labels := [("running_version", runningVersion),
                          ("current_version", currentVersion)],
               Status := status }

/-- The three plain gauges `images_total`, `images_success_total`, `images_error_total`. -/
structure Counters where
  imageVersionTotal : Nat
  imageVersionSuccessTotal : Nat
  imageVersionErrorTotal : Nat
  deriving DecidableEq, Repr

/-- Body of the `for _, image := range images` loop of `imageMetrics`
(exporter.go 155-193), on the pair of the `metrics` slice and the gauges. -/
def imageLoopBody (lib : VersionLib) (newCustom : Registry)
    (st : List Metric × Counters) (image : String) : List Metric × Counters :=
  match Split image ':' with
  | [name, tag] =>
    match GetTags newCustom name with
    | .ok (t :: ts) =>
      let tags := lib.versionSort (t :: ts)
      let runningVersion := tag
      let currentVersion := tags.getLast
        (List.ne_nil_of_length_pos (by simp [tags, lib.versionSort_length]))
      let (runningVersion, currentVersion, status) :=
        compareVersions lib runningVersion currentVersion
      (st.1 ++ [{ Labels := [("image", image),
                             ("running_version", runningVersion),
                             ("current_version", currentVersion)],
                  Status := status }],
       { st.2 with imageVersionSuccessTotal := st.2.imageVersionSuccessTotal + 1 })
    | _ => (st.1, { st.2 with imageVersionErrorTotal := st.2.imageVersionErrorTotal + 1 })
  | _ => (st.1, { st.2 with imageVersionErrorTotal := st.2.imageVersionErrorTotal + 1 })

/-- Source: `imageMetrics` (exporter.go 140-196). `getImages` is the outcome of
`client.GetImages()`, `c` the gauges before the call; the result is the returned slice
(`nil` is the empty list) and the gauges after the call. The status of a record is the
`1` or `0` of `compareVersions`; the comment above the Go function speaks of `2` and `1`,
which the code never publishes. -/
def imageMetrics (lib : VersionLib) (newCustom : Registry)
    (getImages : Except String (List String)) (c : Counters) : List Metric × Counters :=
  match getImages with
  | .error _ => ([], c)
  | .ok images =>
    images.foldl (imageLoopBody lib newCustom)
      ([], { imageVersionTotal := images.length,
             imageVersionSuccessTotal := 0,
             imageVersionErrorTotal := 0 })

/-- The record the loop body appends for one image, if any: the body run on an empty
`metrics` slice. -/
def imageRecord (lib : VersionLib) (newCustom : Registry) (image : String) : Option Metric :=
  (imageLoopBody lib newCustom ([], ⟨0, 0, 0⟩) image).1.head?

/-- A `prometheus.GaugeVec`: the value stored under each label set, if any. -/
abbrev GaugeVec := PromLabels → Option Nat

/-- Go `vec.Reset()`. -/
def GaugeVec.Reset (_ : GaugeVec) : GaugeVec := fun _ => none

/-- Go `vec.With(labels)`: the gauge of the label set is looked up, and created with the
value `0` when the vector does not hold it yet. -/
def GaugeVec.With (g : GaugeVec) (labels : PromLabels) : GaugeVec :=
  fun k => if k = labels then some ((g labels).getD 0) else g k

/-- Go `Set(v)` on the gauge of the label set `labels`. -/
def GaugeVec.Set (g : GaugeVec) (labels : PromLabels) (v : Nat) : GaugeVec :=
  fun k => if k = labels then some v else g k

/-- Go `vec.With(labels).Set(v)`. -/
def GaugeVec.WithSet (g : GaugeVec) (labels : PromLabels) (v : Nat) : GaugeVec :=
  (g.With labels).Set labels v

/-- The loop `for _, metric := range imageMetrics` of `RecordMetrics` (exporter.go 224-226). -/
def setAll (g : GaugeVec) (metrics : List Metric) : GaugeVec :=
  metrics.foldl (fun g m => g.WithSet m.Labels m.Status) g

/-- Publication of the cluster metric in `RecordMetrics` (exporter.go 209-212). -/
def publishCluster (clusterVersionInfo : GaugeVec) (clusterMetric : Option Metric) : GaugeVec :=
  match clusterMetric with
  | none => clusterVersionInfo
  | some m => (clusterVersionInfo.Reset).WithSet m.Labels m.Status

/-- Publication of the image metrics in `RecordMetrics` (exporter.go 222-227). -/
def publishImages (imageVersionInfo : GaugeVec) (imageMetrics : List Metric) : GaugeVec :=
  if imageMetrics.length ≠ 0 then setAll imageVersionInfo.Reset imageMetrics
  else imageVersionInfo

/-- Everything `RecordMetrics` writes: the two gauge vectors and the three gauges. -/
structure Published where
  clusterVersionInfo : GaugeVec
  imageVersionInfo : GaugeVec
  counters : Counters

/-- Outcomes of the collaborators during one cycle. -/
structure Cycle where
  getClusterVersion : Except String String
  httpDo : Except String Response
  getImages : Except String (List String)
  newCustom : Registry

/-- One iteration of the `for` loop of `RecordMetrics` (exporter.go 202-233), the final
sleep apart. -/
def RecordMetricsCycle (lib : VersionLib) (w : Cycle) (s : Published) : Published :=
  let clusterMetric := clusterMetrics lib w.getClusterVersion w.httpDo
  let clusterVersionInfo := publishCluster s.clusterVersionInfo clusterMetric
  let r := imageMetrics lib w.newCustom w.getImages s.counters
  { clusterVersionInfo := clusterVersionInfo,
    imageVersionInfo := publishImages s.imageVersionInfo r.1,
    counters := r.2 }

/-- `RecordMetrics` over the cycles it lives through. -/
def RecordMetrics (lib : VersionLib) (cycles : List Cycle) (s : Published) : Published :=
  cycles.foldl (fun s w => RecordMetricsCycle lib w s) s

/-- One write to a gauge vector during publication: `With(labels)` registers the label
set, `Set(v)` stores the value in its gauge. -/
inductive VecStep where
  | Register (labels : PromLabels)
  | Store (labels : PromLabels) (v : Nat)

/-- Effect of one write. -/
def VecStep.run (g : GaugeVec) : VecStep → GaugeVec
  | .Register labels => g.With labels
  | .Store labels v => g.Set labels v

/-- The two writes of `vec.With(metric.Labels).Set(metric.Status)`. -/
def recordSteps (m : Metric) : List VecStep :=
  [.Register m.Labels, .Store m.Labels m.Status]

/-- The states of `clusterVersionInfo` a scrape can meet while `RecordMetrics` publishes
the cluster metric (exporter.go 210-211): before the first step, after `Reset`, after
`With` has registered the label set, and after `Set`. -/
def clusterObservable (clusterVersionInfo : GaugeVec) (clusterMetric : Option Metric) :
    List GaugeVec :=
  match clusterMetric with
  | none => [clusterVersionInfo]
  | some m =>
    clusterVersionInfo :: List.scanl VecStep.run clusterVersionInfo.Reset (recordSteps m)

/-- The states of `imageVersionInfo` a scrape can meet while `RecordMetrics` publishes the
image metrics (exporter.go 223-226): before the first step, after `Reset`, and after each
`With` and each `Set` of the loop. -/
def imageObservable (imageVersionInfo : GaugeVec) (imageMetrics : List Metric) :
    List GaugeVec :=
  if imageMetrics.length ≠ 0 then
    imageVersionInfo ::
      List.scanl VecStep.run imageVersionInfo.Reset (imageMetrics.flatMap recordSteps)
  else [imageVersionInfo]

/-! ## A concrete version library and concrete registries, to evaluate the definitions

`sampleLib` is a small stand-in for go-version on plain dotted numeric versions. It follows
the behaviour that package documents for them: `Normalize` drops a leading `v` and pads the
version to four numeric components (`1.0.0` becomes `1.0.0.0`), `Compare` compares the
components as numbers, `Sort` sorts ascending in that order. -/

/-- A non-empty run of decimal digits. -/
def digitsOnly (l : List Char) : Bool := !l.isEmpty && l.all Char.isDigit

/-- Value of a run of decimal digits. -/
def digitsValue (l : List Char) : Nat := l.foldl (fun n c => 10 * n + (c.toNat - 48)) 0

/-- Drops one leading `v` or `V`. -/
def dropV : List Char → List Char
  | 'v' :: r => r
  | 'V' :: r => r
  | l => l

/-- Pads a list of components with `0` components up to four. -/
def padFour (parts : List (List Char)) : List (List Char) :=
  parts ++ List.replicate (4 - parts.length) ['0']

/-- Normalisation of `sampleLib`: one to four dotted numeric components are padded to
four; any other string is returned as it is. -/
def sampleNormalize (v : String) : String :=
  let parts := splitChars '.' (dropV v.data)
  if parts.length ≤ 4 && parts.all digitsOnly then
    String.mk (List.intercalate ['.'] (padFour parts))
  else v

/-- The numeric components of a dotted version. -/
def versionKey (v : String) : List Nat := (splitChars '.' v.data).map digitsValue

/-- Strict lexicographic order on lists of numbers. -/
def keyLt : List Nat → List Nat → Bool
  | [], [] => false
  | [], _ :: _ => true
  | _ :: _, [] => false
  | a :: as, b :: bs => a < b || (a == b && keyLt as bs)

/-- Comparison of `sampleLib`: the operators `>` and `<` on the numeric components. -/
def sampleCompare (a b op : String) : Bool :=
  if op = ">" then keyLt (versionKey b) (versionKey a)
  else if op = "<" then keyLt (versionKey a) (versionKey b)
  else false

/-- Inserts a tag into an ascending list of tags. -/
def insertTag (t : String) : List String → List String
  | [] => [t]
  | u :: us =>
    if keyLt (versionKey u) (versionKey t) then u :: insertTag t us else t :: u :: us

/-- Sort of `sampleLib`: insertion sort, ascending. -/
def sampleSort (tags : List String) : List String := tags.foldr insertTag []

/-- The concrete version library. -/
def sampleLib : VersionLib where
  Normalize := sampleNormalize
  Compare := sampleCompare
  versionSort := sampleSort
  versionSort_length := by
    have hins : ∀ (t : String) (l : List String), (insertTag t l).length = l.length + 1 := by
      intro t l
      induction l with
      | nil => rfl
      | cons u us ih =>
        unfold insertTag
        split
        · simp [ih]
        · simp
    intro tags
    induction tags with
    | nil => rfl
    | cons t ts ih =>
      show (insertTag t (sampleSort ts)).length = (t :: ts).length
      rw [hins, ih]
      rfl

/-- A registry that serves the repository `library/nginx` of the default public endpoint
with the tags `1.19.0`, `1.20.0`, `1.21.0`, and nothing else. -/
def nginxRegistry : Registry := fun reg =>
  if reg = "https://registry-1.docker.io/" then
    .ok (fun repo =>
      if repo = "library/nginx" then .ok ["1.19.0", "1.20.0", "1.21.0"]
      else .error "repository unknown")
  else .error "registry unreachable"

/-- A registry that serves every repository of every endpoint with the tags `1.0`, `2.0`. -/
def openRegistry : Registry := fun _ => .ok (fun _ => .ok ["1.0", "2.0"])

/-- A registry whose client can never be created. -/
def downRegistry : Registry := fun _ => .error "registry unreachable"

/-- A published image set left by an earlier cycle: one record, for `redis:5.0`. -/
def staleImages : GaugeVec :=
  GaugeVec.WithSet (fun _ => none)
    [("image", "redis:5.0"), ("running_version", "5.0.0.0"), ("current_version", "6.0.0.0")] 1

/-- A published platform set left by an earlier cycle. -/
def staleCluster : GaugeVec :=
  GaugeVec.WithSet (fun _ => none)
    [("running_version", "1.23.0.0"), ("current_version", "1.24.0.0")] 1

/-- Two records of a new cycle. -/
def freshRecords : List Metric :=
  [{ Labels := [("image", "nginx:1.20.0"), ("running_version", "1.20.0.0"),
                ("current_version", "1.21.0.0")], Status := 1 },
   { Labels := [("image", "myorg/myimage:2.0"), ("running_version", "2.0.0.0"),
                ("current_version", "2.0.0.0")], Status := 0 }]

/-- A platform record of a new cycle. -/
def freshCluster : Metric :=
  { Labels := [("running_version", "1.24.3.0"), ("current_version", "1.24.3.0")], Status := 0 }

/-- A cycle in which every collaborator answers: the platform runs `v1.24.3`, the latest
release is `v1.24.3`, the images are `nginx:1.20.0` and the malformed `nginx`. -/
def sampleCycle : Cycle where
  getClusterVersion := .ok "v1.24.3"
  httpDo := .ok ⟨200, .ok ⟨"v1.24.3"⟩⟩
  getImages := .ok ["nginx:1.20.0", "nginx"]
  newCustom := nginxRegistry

/-- A cycle in which GitHub answers the release request with status 403 and a JSON error
body (a body without `tag_name`), the platform running `v1.24.3`. -/
def rateLimitedCycle : Cycle where
  getClusterVersion := .ok "v1.24.3"
  httpDo := .ok ⟨403, .ok ⟨""⟩⟩
  getImages := .ok []
  newCustom := downRegistry

/-- A version library whose normalisation is not idempotent (it appends `.0` each time),
with the comparison and the sort of `sampleLib`. -/
def appendLib : VersionLib where
  Normalize := fun v => v ++ ".0"
  Compare := sampleCompare
  versionSort := sampleSort
  versionSort_length := sampleLib.versionSort_length

/-- A cycle in which the platform runs `1` and the latest release is `1`. -/
def equalCycle : Cycle where
  getClusterVersion := .ok "1"
  httpDo := .ok ⟨200, .ok ⟨"1"⟩⟩
  getImages := .ok []
  newCustom := downRegistry

/-- The published state left by an earlier cycle. -/
def stalePublished : Published where
  clusterVersionInfo := staleCluster
  imageVersionInfo := staleImages
  counters := ⟨3, 2, 1⟩

/-! ## Lemmas on splitting -/

theorem splitChars_ne_nil (sep : Char) (l : List Char) : splitChars sep l ≠ [] := by
  induction l with
  | nil => simp [splitChars]
  | cons c cs ih =>
    unfold splitChars
    split
    · simp
    · split <;> simp

theorem splitChars_cons_ne (sep c : Char) (cs : List Char) (h : c ≠ sep) :
    ∃ p ps, splitChars sep cs = p :: ps ∧ splitChars sep (c :: cs) = (c :: p) :: ps := by
  cases hs : splitChars sep cs with
  | nil => exact absurd hs (splitChars_ne_nil sep cs)
  | cons p ps => exact ⟨p, ps, rfl, by simp [splitChars, h, hs]⟩

theorem splitChars_length (sep : Char) (l : List Char) :
    (splitChars sep l).length = l.count sep + 1 := by
  induction l with
  | nil => simp [splitChars]
  | cons c cs ih =>
    by_cases h : c = sep
    · subst h
      simp [splitChars, ih]
    · obtain ⟨p, ps, h1, h2⟩ := splitChars_cons_ne sep c cs h
      have hc : List.count sep (c :: cs) = List.count sep cs := by
        simp [List.count_cons, h]
      rw [h2, hc, ← ih, h1]
      simp

theorem splitChars_not_mem (sep : Char) (l : List Char) (h : sep ∉ l) :
    splitChars sep l = [l] := by
  induction l with
  | nil => simp [splitChars]
  | cons c cs ih =>
    simp only [List.mem_cons, not_or] at h
    have hc : c ≠ sep := fun e => h.1 e.symm
    simp [splitChars, hc, ih h.2]

theorem splitChars_append (sep : Char) (a b : List Char) (h : sep ∉ a) :
    splitChars sep (a ++ sep :: b) = a :: splitChars sep b := by
  induction a with
  | nil => simp [splitChars]
  | cons c cs ih =>
    simp only [List.mem_cons, not_or] at h
    have hc : c ≠ sep := fun e => h.1 e.symm
    simp [splitChars, hc, ih h.2]

theorem splitChars_join (sep : Char) (l : List Char) :
    List.intercalate [sep] (splitChars sep l) = l := by
  induction l with
  | nil => simp [splitChars, List.intercalate]
  | cons c cs ih =>
    by_cases h : c = sep
    · subst h
      cases hs : splitChars c cs with
      | nil => exact absurd hs (splitChars_ne_nil c cs)
      | cons p ps =>
        rw [hs] at ih
        simp only [splitChars, if_true, hs]
        simp [List.intercalate, List.intersperse] at ih ⊢
        exact ih
    · obtain ⟨p, ps, h1, h2⟩ := splitChars_cons_ne sep c cs h
      rw [h1] at ih
      rw [h2]
      cases ps with
      | nil =>
        simp [List.intercalate, List.intersperse] at ih ⊢
        exact ih
      | cons q qs =>
        simp [List.intercalate, List.intersperse] at ih ⊢
        exact ih

theorem Split_ne_nil (s : String) (sep : Char) : Split s sep ≠ [] := by
  simp [Split, splitChars_ne_nil]

theorem Split_length (s : String) (sep : Char) :
    (Split s sep).length = s.data.count sep + 1 := by
  simp [Split, splitChars_length]

theorem Join_map_mk (c : Char) (parts : List (List Char)) :
    Join (parts.map String.mk) (String.mk [c]) = String.mk (List.intercalate [c] parts) := by
  induction parts with
  | nil => rfl
  | cons a rest ih =>
    cases rest with
    | nil => simp [Join, List.intercalate, List.intersperse]
    | cons b rest2 =>
      simp only [List.map_cons, Join] at ih ⊢
      rw [ih]
      apply String.ext
      simp [List.intercalate, List.intersperse]

theorem Join_Split (s : String) (c : Char) : Join (Split s c) (String.mk [c]) = s := by
  rw [Split, Join_map_mk, splitChars_join]

theorem append_ne_empty (a b : String) (h : a ≠ "") : a ++ b ≠ "" := by
  intro e
  apply h
  have hd := congrArg String.data e
  simp only [String.data_append] at hd
  apply String.ext
  have : a.data = [] := (List.append_eq_nil.mp hd).1
  simpa using this

theorem getRegAndRepo_fst_ne_empty (image : String)
    (h : (Split image '/').length = 1 ∨ (Split image '/').length = 2 ∨
      (Split image '/').length = 3) :
    (getRegAndRepo image).1 ≠ "" := by
  rcases hs : Split image '/' with _ | ⟨a, _ | ⟨b, _ | ⟨c, _ | ⟨d, rest⟩⟩⟩⟩
  · exact absurd hs (Split_ne_nil _ _)
  · simp only [getRegAndRepo, hs]
    exact (by decide : "https://registry-1.docker.io/" ≠ "")
  · simp only [getRegAndRepo, hs]
    exact (by decide : "https://registry-1.docker.io/" ≠ "")
  · simp only [getRegAndRepo, hs]
    split
    · exact (by decide : "https://registry-1.docker.io/" ≠ "")
    · exact append_ne_empty "https://" a (by decide)
  · rw [hs] at h
    simp at h

theorem getRegAndRepo_other (image : String)
    (h : ¬ ((Split image '/').length = 1 ∨ (Split image '/').length = 2 ∨
      (Split image '/').length = 3)) :
    getRegAndRepo image = ("", "") := by
  rcases hs : Split image '/' with _ | ⟨a, _ | ⟨b, _ | ⟨c, _ | ⟨d, rest⟩⟩⟩⟩
  · exact absurd hs (Split_ne_nil _ _)
  · rw [hs] at h; simp at h
  · rw [hs] at h; simp at h
  · rw [hs] at h; simp at h
  · simp only [getRegAndRepo, hs]

/-! ## C1: the resolution table -/

/-- C1. For every image name, by the number of parts of the name split on `/`: one part
gives the default public endpoint and the repository `library/` followed by the name; two
parts give the default public endpoint and the repository `seg0/seg1`, which is the name
itself; three parts with `seg0 = docker.io` give the default public endpoint and
`seg1/seg2`; three parts otherwise give the endpoint `https://` followed by `seg0` and the
repository `seg1/seg2`. The four names of the specification resolve as listed there. -/
theorem getRegAndRepo_table (image : String) :
    ((Split image '/').length = 1 →
      getRegAndRepo image = ("https://registry-1.docker.io/", "library/" ++ image)) ∧
    (∀ seg0 seg1, Split image '/' = [seg0, seg1] →
      getRegAndRepo image = ("https://registry-1.docker.io/", seg0 ++ "/" ++ seg1) ∧
      seg0 ++ "/" ++ seg1 = image) ∧
    (∀ seg0 seg1 seg2, Split image '/' = [seg0, seg1, seg2] → seg0 = "docker.io" →
      getRegAndRepo image = ("https://registry-1.docker.io/", seg1 ++ "/" ++ seg2)) ∧
    (∀ seg0 seg1 seg2, Split image '/' = [seg0, seg1, seg2] → seg0 ≠ "docker.io" →
      getRegAndRepo image = ("https://" ++ seg0, seg1 ++ "/" ++ seg2)) ∧
    getRegAndRepo "nginx" = ("https://registry-1.docker.io/", "library/nginx") ∧
    getRegAndRepo "myorg/myimage" = ("https://registry-1.docker.io/", "myorg/myimage") ∧
    getRegAndRepo "docker.io/myorg/myimage" =
      ("https://registry-1.docker.io/", "myorg/myimage") ∧
    getRegAndRepo "quay.io/myorg/myimage" = ("https://quay.io", "myorg/myimage") := by
  refine ⟨?_, ?_, ?_, ?_, by decide, by decide, by decide, by decide⟩
  · intro h
    rcases hs : Split image '/' with _ | ⟨a, _ | ⟨b, rest⟩⟩
    · exact absurd hs (Split_ne_nil _ _)
    · have hj := Join_Split image '/'
      rw [hs] at hj
      simp only [Join] at hj
      simp only [getRegAndRepo, hs, hj]
    · rw [hs] at h; simp at h
  · intro seg0 seg1 hs
    have hj := Join_Split image '/'
    rw [hs] at hj
    have hsep : String.mk ['/'] = "/" := rfl
    rw [hsep] at hj
    simp only [Join] at hj
    refine ⟨?_, hj⟩
    simp only [getRegAndRepo, hs, Join]
  · intro seg0 seg1 seg2 hs h0
    simp only [getRegAndRepo, hs, h0, if_true]
  · intro seg0 seg1 seg2 hs h0
    simp only [getRegAndRepo, hs, h0, if_false]

/-- C1 at the name `quay.io/myorg/myimage`: three parts, the first not `docker.io`. -/
theorem getRegAndRepo_table_witness :
    getRegAndRepo "quay.io/myorg/myimage" = ("https://" ++ "quay.io", "myorg" ++ "/" ++ "myimage") :=
  (getRegAndRepo_table "quay.io/myorg/myimage").2.2.2.1 "quay.io" "myorg" "myimage"
    (by decide) (by decide)

/-! ## C2: when resolution fails -/

/-- C2. For every image name, `getRegAndRepo` returns the sentinel pair of empty strings
exactly when the name split on `/` does not have 1, 2 or 3 parts, and `GetTags` returns
`ErrCouldNotGetRegAndRepo` exactly then, whatever the registry client would do (so the
client is not consulted first); with 1, 2 or 3 parts the endpoint is never empty, also
for the empty name and for empty segments. `a/b/c/d` fails. -/
theorem resolution_fails_iff (image : String) :
    (getRegAndRepo image = ("", "") ↔
      ¬ ((Split image '/').length = 1 ∨ (Split image '/').length = 2 ∨
        (Split image '/').length = 3)) ∧
    (∀ newCustom : Registry,
      GetTags newCustom image = .error .ErrCouldNotGetRegAndRepo ↔
        ¬ ((Split image '/').length = 1 ∨ (Split image '/').length = 2 ∨
          (Split image '/').length = 3)) ∧
    (((Split image '/').length = 1 ∨ (Split image '/').length = 2 ∨
        (Split image '/').length = 3) → (getRegAndRepo image).1 ≠ "") ∧
    getRegAndRepo "a/b/c/d" = ("", "") ∧
    getRegAndRepo "" = ("https://registry-1.docker.io/", "library/") ∧
    getRegAndRepo "//" = ("https://", "/") := by
  refine ⟨⟨?_, getRegAndRepo_other image⟩, ?_, getRegAndRepo_fst_ne_empty image,
    by decide, by decide, by decide⟩
  · intro h hlen
    exact getRegAndRepo_fst_ne_empty image hlen (by rw [h])
  · intro newCustom
    constructor
    · intro h hlen
      have hne := getRegAndRepo_fst_ne_empty image hlen
      unfold GetTags at h
      simp only [hne, false_and, if_false] at h
      cases hc : newCustom (getRegAndRepo image).1 with
      | error e => simp [hc] at h
      | ok hub =>
        simp only [hc] at h
        cases hr : hub (getRegAndRepo image).2 with
        | error e => simp [hr] at h
        | ok tags => simp [hr] at h
    · intro h
      have he := getRegAndRepo_other image h
      simp [GetTags, he]

/-- C2 at the name `a/b/c/d` with a registry that serves every repository: four parts, so
the registry is not asked and the sentinel error comes back. -/
theorem resolution_fails_iff_witness :
    GetTags openRegistry "a/b/c/d" = .error .ErrCouldNotGetRegAndRepo :=
  ((resolution_fails_iff "a/b/c/d").2.1 openRegistry).2 (by decide)

/-! ## C3: the decision -/

/-- C3. For all strings `running` and `latest`, `compareVersions` returns the normalised
running version first, the normalised latest version second, and a status that is `1`
exactly when the library comparison `Compare(normalize latest, normalize running, ">")`
holds and `0` otherwise; no other status occurs. -/
theorem compareVersions_decides (lib : VersionLib) (running latest : String) :
    (compareVersions lib running latest).1 = lib.Normalize running ∧
    (compareVersions lib running latest).2.1 = lib.Normalize latest ∧
    ((compareVersions lib running latest).2.2 = 1 ↔
      lib.Compare (lib.Normalize latest) (lib.Normalize running) ">" = true) ∧
    ((compareVersions lib running latest).2.2 = 0 ↔
      lib.Compare (lib.Normalize latest) (lib.Normalize running) ">" = false) ∧
    ((compareVersions lib running latest).2.2 = 0 ∨
      (compareVersions lib running latest).2.2 = 1) := by
  by_cases h : lib.Compare (lib.Normalize latest) (lib.Normalize running) ">" = true
  · simp [compareVersions, h]
  · simp [compareVersions, h]

/-! ## The loop body of `imageMetrics` -/

theorem splitChars_piece_not_mem (sep : Char) (l : List Char) :
    ∀ p ∈ splitChars sep l, sep ∉ p := by
  induction l with
  | nil => simp [splitChars]
  | cons c cs ih =>
    by_cases h : c = sep
    · subst h
      intro p hp
      simp only [splitChars, if_true, List.mem_cons] at hp
      rcases hp with rfl | hp
      · simp
      · exact ih p hp
    · obtain ⟨q, qs, h1, h2⟩ := splitChars_cons_ne sep c cs h
      intro p hp
      rw [h2] at hp
      rw [h1] at ih
      simp only [List.mem_cons] at hp
      rcases hp with rfl | hp
      · have hq := ih q (by simp)
        simp only [List.mem_cons, not_or]
        exact ⟨fun e => h e.symm, hq⟩
      · exact ih p (by simp [hp])

theorem Split_two_iff (image name tag : String) (c : Char) :
    Split image c = [name, tag] ↔
      image = name ++ String.mk [c] ++ tag ∧ c ∉ name.data ∧ c ∉ tag.data := by
  constructor
  · intro hs
    have hj := Join_Split image c
    rw [hs] at hj
    simp only [Join] at hj
    refine ⟨hj.symm, ?_, ?_⟩
    · have hm : name.data ∈ splitChars c image.data := by
        have : name ∈ Split image c := by simp [hs]
        simp only [Split, List.mem_map] at this
        obtain ⟨p, hp, rfl⟩ := this
        exact hp
      exact splitChars_piece_not_mem c image.data _ hm
    · have hm : tag.data ∈ splitChars c image.data := by
        have : tag ∈ Split image c := by simp [hs]
        simp only [Split, List.mem_map] at this
        obtain ⟨p, hp, rfl⟩ := this
        exact hp
      exact splitChars_piece_not_mem c image.data _ hm
  · rintro ⟨rfl, hn, ht⟩
    simp only [Split, String.data_append, List.append_assoc, List.singleton_append]
    rw [splitChars_append c _ _ hn, splitChars_not_mem c _ ht]
    rfl

theorem imageLoopBody_no_split (lib : VersionLib) (newCustom : Registry)
    (st : List Metric × Counters) (image : String) (h : (Split image ':').length ≠ 2) :
    imageLoopBody lib newCustom st image =
      (st.1, { st.2 with imageVersionErrorTotal := st.2.imageVersionErrorTotal + 1 }) := by
  rcases hs : Split image ':' with _ | ⟨a, _ | ⟨b, _ | ⟨c, rest⟩⟩⟩
  · simp only [imageLoopBody, hs]
  · simp only [imageLoopBody, hs]
  · rw [hs] at h; simp at h
  · simp only [imageLoopBody, hs]

theorem imageLoopBody_no_tags (lib : VersionLib) (newCustom : Registry)
    (st : List Metric × Counters) (image name tag : String)
    (hs : Split image ':' = [name, tag])
    (hg : ∀ t ts, GetTags newCustom name ≠ .ok (t :: ts)) :
    imageLoopBody lib newCustom st image =
      (st.1, { st.2 with imageVersionErrorTotal := st.2.imageVersionErrorTotal + 1 }) := by
  simp only [imageLoopBody, hs]

theorem imageLoopBody_tags (lib : VersionLib) (newCustom : Registry)
    (st : List Metric × Counters) (image name tag t : String) (ts : List String)
    (hs : Split image ':' = [name, tag])
    (hg : GetTags newCustom name = .ok (t :: ts)) :
    ∃ latest, (lib.versionSort (t :: ts)).getLast? = some latest ∧
      imageLoopBody lib newCustom st image =
        (st.1 ++ [{ Labels := [("image", image),
                               ("running_version", (compareVersions lib tag latest).1),
                               ("current_version", (compareVersions lib tag latest).2.1)],
                    Status := (compareVersions lib tag latest).2.2 }],
         { st.2 with imageVersionSuccessTotal := st.2.imageVersionSuccessTotal + 1 }) := by
  have hne : lib.versionSort (t :: ts) ≠ [] :=
    List.ne_nil_of_length_pos (by simp [lib.versionSort_length])
  refine ⟨(lib.versionSort (t :: ts)).getLast hne, List.getLast?_eq_getLast _ hne, ?_⟩
  simp only [imageLoopBody, hs]
  split
  · next t2 ts2 heq =>
    rw [hg] at heq
    injection heq with heq
    injection heq with h1 h2
    subst h1; subst h2
    rfl
  · next hno => exact absurd hg (hno t ts)

theorem imageLoopBody_eq (lib : VersionLib) (newCustom : Registry)
    (st : List Metric × Counters) (image : String) :
    imageLoopBody lib newCustom st image =
      match imageRecord lib newCustom image with
      | some m =>
        (st.1 ++ [m],
         { st.2 with imageVersionSuccessTotal := st.2.imageVersionSuccessTotal + 1 })
      | none =>
        (st.1, { st.2 with imageVersionErrorTotal := st.2.imageVersionErrorTotal + 1 }) := by
  by_cases hl : (Split image ':').length = 2
  · obtain ⟨name, tag, hs⟩ : ∃ name tag, Split image ':' = [name, tag] := by
      rcases hs : Split image ':' with _ | ⟨a, _ | ⟨b, _ | ⟨c, rest⟩⟩⟩
      · rw [hs] at hl; simp at hl
      · rw [hs] at hl; simp at hl
      · exact ⟨a, b, rfl⟩
      · rw [hs] at hl; simp at hl
    by_cases hg : ∃ t ts, GetTags newCustom name = .ok (t :: ts)
    · obtain ⟨t, ts, hg⟩ := hg
      obtain ⟨l1, h1, e1⟩ := imageLoopBody_tags lib newCustom st image name tag t ts hs hg
      obtain ⟨l2, h2, e2⟩ :=
        imageLoopBody_tags lib newCustom ([], ⟨0, 0, 0⟩) image name tag t ts hs hg
      have hll : l2 = l1 := by
        rw [h1] at h2
        exact (Option.some.inj h2).symm
      subst hll
      simp only [imageRecord, e2, e1, List.nil_append, List.head?_cons]
    · have hg2 : ∀ t ts, GetTags newCustom name ≠ .ok (t :: ts) :=
        fun t ts e => hg ⟨t, ts, e⟩
      simp only [imageRecord, imageLoopBody_no_tags lib newCustom _ image name tag hs hg2,
        List.head?_nil]
  · simp only [imageRecord, imageLoopBody_no_split lib newCustom _ image hl, List.head?_nil]

theorem foldl_imageLoopBody (lib : VersionLib) (newCustom : Registry) (images : List String) :
    ∀ st : List Metric × Counters,
      images.foldl (imageLoopBody lib newCustom) st =
        (st.1 ++ images.filterMap (imageRecord lib newCustom),
         { imageVersionTotal := st.2.imageVersionTotal,
           imageVersionSuccessTotal := st.2.imageVersionSuccessTotal +
             (images.filterMap (imageRecord lib newCustom)).length,
           imageVersionErrorTotal := st.2.imageVersionErrorTotal +
             images.countP (fun i => (imageRecord lib newCustom i).isNone) }) := by
  induction images with
  | nil => intro st; simp
  | cons image rest ih =>
    intro st
    rw [List.foldl_cons, ih, imageLoopBody_eq]
    cases hr : imageRecord lib newCustom image with
    | none => simp [hr, List.filterMap_cons, List.countP_cons, Nat.add_assoc, Nat.add_comm]
    | some m =>
      simp [hr, List.filterMap_cons, List.countP_cons, Nat.add_assoc, Nat.add_comm]
      omega

theorem imageMetrics_ok (lib : VersionLib) (newCustom : Registry) (images : List String)
    (c : Counters) :
    imageMetrics lib newCustom (.ok images) c =
      (images.filterMap (imageRecord lib newCustom),
       { imageVersionTotal := images.length,
         imageVersionSuccessTotal := (images.filterMap (imageRecord lib newCustom)).length,
         imageVersionErrorTotal :=
           images.countP (fun i => (imageRecord lib newCustom i).isNone) }) := by
  simp [imageMetrics, foldl_imageLoopBody]

theorem filterMap_length_add_countP {α β : Type} (f : α → Option β) (l : List α) :
    (l.filterMap f).length + l.countP (fun i => (f i).isNone) = l.length := by
  induction l with
  | nil => rfl
  | cons a rest ih =>
    cases h : f a with
    | none =>
      simp only [List.filterMap_cons, h, List.countP_cons, Option.isNone_none, if_true,
        List.length_cons]
      omega
    | some b =>
      simp only [List.filterMap_cons, h, List.countP_cons, Option.isNone_some,
        List.length_cons]
      simp only [Bool.false_eq_true, if_false]
      omega

/-! ## C4: how a reference is split -/

/-- C4 as stated fails at `localhost:5000/app:1.0`. The reference contains `:`, the
registry serves the name `localhost:5000/app` the claim says is looked up, and still the
reference is split into three parts, yields no record and is counted as failed. -/
theorem last_colon_split_counterexample :
    ':' ∈ "localhost:5000/app:1.0".data ∧
    Split "localhost:5000/app:1.0" ':' = ["localhost", "5000/app", "1.0"] ∧
    (∃ tags, GetTags openRegistry "localhost:5000/app" = .ok tags ∧ tags ≠ []) ∧
    imageMetrics sampleLib openRegistry (.ok ["localhost:5000/app:1.0"]) ⟨0, 0, 0⟩ =
      ([], ⟨1, 0, 1⟩) := by
  refine ⟨by decide, by decide, ⟨["1.0", "2.0"], rfl, by decide⟩, by decide⟩

/-- C4, amended. A reference `name:tag` with exactly one `:` is split there: either the
lookup of `name` gives a non-empty tag list, and then the loop body appends the record
labelled with the whole reference whose versions and status are those of
`compareVersions tag latest`, `latest` being the last tag of the sorted list; or it does
not, and the body counts a failure. A reference fails at the split itself exactly when
its number of `:` is not one (none, or two and more), whatever the registry holds; a
reference with one `:` always has the form `name:tag`. -/
theorem imageLoopBody_single_colon (lib : VersionLib) (newCustom : Registry)
    (st : List Metric × Counters) (image : String) :
    (∀ name tag, image = name ++ ":" ++ tag → ':' ∉ name.data → ':' ∉ tag.data →
      Split image ':' = [name, tag] ∧
      (∀ t ts, GetTags newCustom name = .ok (t :: ts) →
        ∃ latest, (lib.versionSort (t :: ts)).getLast? = some latest ∧
          imageLoopBody lib newCustom st image =
            (st.1 ++ [{ Labels := [("image", image),
                                   ("running_version", (compareVersions lib tag latest).1),
                                   ("current_version", (compareVersions lib tag latest).2.1)],
                        Status := (compareVersions lib tag latest).2.2 }],
             { st.2 with
               imageVersionSuccessTotal := st.2.imageVersionSuccessTotal + 1 })) ∧
      ((∀ t ts, GetTags newCustom name ≠ .ok (t :: ts)) →
        imageLoopBody lib newCustom st image =
          (st.1, { st.2 with
                   imageVersionErrorTotal := st.2.imageVersionErrorTotal + 1 }))) ∧
    ((Split image ':').length ≠ 2 ↔ image.data.count ':' ≠ 1) ∧
    (image.data.count ':' ≠ 1 →
      imageLoopBody lib newCustom st image =
        (st.1, { st.2 with imageVersionErrorTotal := st.2.imageVersionErrorTotal + 1 })) ∧
    (image.data.count ':' = 1 →
      ∃ name tag, image = name ++ ":" ++ tag ∧ ':' ∉ name.data ∧ ':' ∉ tag.data) := by
  have hlen : (Split image ':').length ≠ 2 ↔ image.data.count ':' ≠ 1 := by
    rw [Split_length]
    omega
  refine ⟨?_, hlen, ?_, ?_⟩
  · intro name tag himg hn ht
    have hs : Split image ':' = [name, tag] :=
      (Split_two_iff image name tag ':').2 ⟨himg, hn, ht⟩
    exact ⟨hs, fun t ts hg => imageLoopBody_tags lib newCustom st image name tag t ts hs hg,
      fun hg => imageLoopBody_no_tags lib newCustom st image name tag hs hg⟩
  · intro hc
    exact imageLoopBody_no_split lib newCustom st image (hlen.2 hc)
  · intro hc
    have h2 : (Split image ':').length = 2 := by
      rw [Split_length]
      omega
    rcases hs : Split image ':' with _ | ⟨a, _ | ⟨b, _ | ⟨c, rest⟩⟩⟩
    · rw [hs] at h2; simp at h2
    · rw [hs] at h2; simp at h2
    · exact ⟨a, b, (Split_two_iff image a b ':').1 hs⟩
    · rw [hs] at h2; simp at h2

/-- C4, amended, at `nginx:1.20.0` with the registry that serves `library/nginx`: the
name looked up is `nginx`, the running tag `1.20.0`, the latest tag `1.21.0`. -/
theorem imageLoopBody_single_colon_witness :
    ∃ latest, (sampleLib.versionSort ["1.19.0", "1.20.0", "1.21.0"]).getLast? = some latest ∧
      imageLoopBody sampleLib nginxRegistry ([], ⟨1, 0, 0⟩) "nginx:1.20.0" =
        ([{ Labels := [("image", "nginx:1.20.0"),
                       ("running_version", (compareVersions sampleLib "1.20.0" latest).1),
                       ("current_version", (compareVersions sampleLib "1.20.0" latest).2.1)],
            Status := (compareVersions sampleLib "1.20.0" latest).2.2 }],
         ⟨1, 1, 0⟩) :=
  ((imageLoopBody_single_colon sampleLib nginxRegistry ([], ⟨1, 0, 0⟩) "nginx:1.20.0").1
    "nginx" "1.20.0" (by decide) (by decide) (by decide)).2.1 "1.19.0" ["1.20.0", "1.21.0"] rfl

/-! ## C5: per-image isolation -/

/-- C5. With a fixed registry, the records of `imageMetrics` for `xs ++ ys` are the
records for `xs` followed by the records for `ys`, and the failed count is the sum of the
two failed counts. The records of a list are the records of its images one by one
(`imageRecord`), and the record of an image is the same under any two registries that
answer alike for the name of that image. The reference `nginx`, without a tag, has no
record. -/
theorem imageMetrics_isolation (lib : VersionLib) (newCustom : Registry) (c : Counters)
    (xs ys : List String) :
    (imageMetrics lib newCustom (.ok (xs ++ ys)) c).1 =
      (imageMetrics lib newCustom (.ok xs) c).1 ++ (imageMetrics lib newCustom (.ok ys) c).1 ∧
    (imageMetrics lib newCustom (.ok (xs ++ ys)) c).2.imageVersionErrorTotal =
      (imageMetrics lib newCustom (.ok xs) c).2.imageVersionErrorTotal +
        (imageMetrics lib newCustom (.ok ys) c).2.imageVersionErrorTotal ∧
    (∀ images, (imageMetrics lib newCustom (.ok images) c).1 =
      images.filterMap (imageRecord lib newCustom)) ∧
    (∀ (other : Registry) (image : String),
      (∀ name tag, Split image ':' = [name, tag] →
        GetTags other name = GetTags newCustom name) →
      imageRecord lib other image = imageRecord lib newCustom image) ∧
    imageRecord lib newCustom "nginx" = none := by
  refine ⟨?_, ?_, ?_, ?_, ?_⟩
  · simp [imageMetrics_ok]
  · simp [imageMetrics_ok]
  · intro images
    simp [imageMetrics_ok]
  · intro other image h
    by_cases hl : (Split image ':').length = 2
    · rcases hs : Split image ':' with _ | ⟨a, _ | ⟨b, _ | ⟨d, rest⟩⟩⟩
      · rw [hs] at hl; simp at hl
      · rw [hs] at hl; simp at hl
      · simp only [imageRecord, imageLoopBody, hs, h a b hs]
      · rw [hs] at hl; simp at hl
    · simp only [imageRecord, imageLoopBody_no_split lib _ _ image hl]
  · have hl : (Split "nginx" ':').length ≠ 2 := by decide
    simp only [imageRecord, imageLoopBody_no_split lib _ _ "nginx" hl, List.head?_nil]

/-- C5 at the batch `nginx`, `a/b/c/d:1`, `nginx:1.20.0`: the malformed reference and the
unresolvable name before it do not change the record of `nginx:1.20.0`, which is the one
it has alone, and the registry that is down gives the malformed `nginx` the same (absent)
record. -/
theorem imageMetrics_isolation_witness :
    (imageMetrics sampleLib nginxRegistry (.ok (["nginx", "a/b/c/d:1"] ++ ["nginx:1.20.0"]))
        ⟨0, 0, 0⟩).1 =
      (imageMetrics sampleLib nginxRegistry (.ok ["nginx", "a/b/c/d:1"]) ⟨0, 0, 0⟩).1 ++
        (imageMetrics sampleLib nginxRegistry (.ok ["nginx:1.20.0"]) ⟨0, 0, 0⟩).1 ∧
    imageRecord sampleLib downRegistry "nginx" = imageRecord sampleLib nginxRegistry "nginx" :=
  ⟨(imageMetrics_isolation sampleLib nginxRegistry ⟨0, 0, 0⟩ ["nginx", "a/b/c/d:1"]
      ["nginx:1.20.0"]).1,
   (imageMetrics_isolation sampleLib nginxRegistry ⟨0, 0, 0⟩ [] []).2.2.2.1 downRegistry
      "nginx" (fun _ _ h => by
        rw [show Split "nginx" ':' = ["nginx"] from by decide] at h
        simp at h)⟩

/-! ## C7: the cycle counters -/

/-- C7. If the inventory listing fails, `imageMetrics` leaves the three counters as they
were. If it succeeds with the list `images`, then on return the total is the length of
`images`, the succeeded count is the number of records returned, the failed count is the
number of images without a record, succeeded plus failed is the total, and none of this
depends on the counters before the call. -/
theorem imageMetrics_counters (lib : VersionLib) (newCustom : Registry) (c : Counters) :
    (∀ e, (imageMetrics lib newCustom (.error e) c).2 = c) ∧
    (∀ images : List String,
      (imageMetrics lib newCustom (.ok images) c).2.imageVersionTotal = images.length ∧
      (imageMetrics lib newCustom (.ok images) c).2.imageVersionSuccessTotal =
        (imageMetrics lib newCustom (.ok images) c).1.length ∧
      (imageMetrics lib newCustom (.ok images) c).2.imageVersionErrorTotal =
        images.countP (fun i => (imageRecord lib newCustom i).isNone) ∧
      (imageMetrics lib newCustom (.ok images) c).2.imageVersionSuccessTotal +
          (imageMetrics lib newCustom (.ok images) c).2.imageVersionErrorTotal =
        (imageMetrics lib newCustom (.ok images) c).2.imageVersionTotal ∧
      (∀ c0, imageMetrics lib newCustom (.ok images) c0 =
        imageMetrics lib newCustom (.ok images) c)) := by
  refine ⟨fun e => rfl, fun images => ⟨?_, ?_, ?_, ?_, fun c0 => rfl⟩⟩
  · simp [imageMetrics_ok]
  · simp [imageMetrics_ok]
  · simp [imageMetrics_ok]
  · simp only [imageMetrics_ok]
    exact filterMap_length_add_countP _ _

/-! ## C6: what the image phase publishes -/

theorem imageRecord_labels (lib : VersionLib) (newCustom : Registry) (image : String)
    (m : Metric) (h : imageRecord lib newCustom image = some m) :
    m.Labels.head? = some ("image", image) := by
  by_cases hl : (Split image ':').length = 2
  · obtain ⟨name, tag, hs⟩ : ∃ name tag, Split image ':' = [name, tag] := by
      rcases hs : Split image ':' with _ | ⟨a, _ | ⟨b, _ | ⟨c, rest⟩⟩⟩
      · rw [hs] at hl; simp at hl
      · rw [hs] at hl; simp at hl
      · exact ⟨a, b, rfl⟩
      · rw [hs] at hl; simp at hl
    by_cases hg : ∃ t ts, GetTags newCustom name = .ok (t :: ts)
    · obtain ⟨t, ts, hg⟩ := hg
      obtain ⟨l, _, e⟩ :=
        imageLoopBody_tags lib newCustom ([], ⟨0, 0, 0⟩) image name tag t ts hs hg
      simp only [imageRecord, e, List.nil_append, List.head?_cons, Option.some.injEq] at h
      subst h
      rfl
    · have hg2 : ∀ t ts, GetTags newCustom name ≠ .ok (t :: ts) :=
        fun t ts e => hg ⟨t, ts, e⟩
      simp [imageRecord, imageLoopBody_no_tags lib newCustom _ image name tag hs hg2] at h
  · simp [imageRecord, imageLoopBody_no_split lib newCustom _ image hl] at h

theorem records_functional (lib : VersionLib) (newCustom : Registry) (images : List String)
    (m m' : Metric)
    (hm : m ∈ images.filterMap (imageRecord lib newCustom))
    (hm' : m' ∈ images.filterMap (imageRecord lib newCustom))
    (hl : m.Labels = m'.Labels) : m = m' := by
  simp only [List.mem_filterMap] at hm hm'
  obtain ⟨i, _, hi⟩ := hm
  obtain ⟨i', _, hi'⟩ := hm'
  have h1 := imageRecord_labels lib newCustom i m hi
  have h2 := imageRecord_labels lib newCustom i' m' hi'
  rw [hl, h2] at h1
  have hii : i' = i := by
    have := Option.some.inj h1
    exact (Prod.mk.inj this).2
  subst hii
  rw [hi] at hi'
  exact Option.some.inj hi'

theorem WithSet_apply (g : GaugeVec) (labels : PromLabels) (v : Nat) (k : PromLabels) :
    g.WithSet labels v k = if k = labels then some v else g k := by
  by_cases h : k = labels <;> simp [GaugeVec.WithSet, GaugeVec.Set, GaugeVec.With, h]

theorem setAll_cons (g : GaugeVec) (m : Metric) (ms : List Metric) :
    setAll g (m :: ms) = setAll (g.WithSet m.Labels m.Status) ms := rfl

theorem setAll_some (ms : List Metric) :
    ∀ (g : GaugeVec) (labels : PromLabels) (status : Nat),
      setAll g ms labels = some status →
        (∃ r ∈ ms, r.Labels = labels ∧ r.Status = status) ∨
          ((∀ r ∈ ms, r.Labels ≠ labels) ∧ g labels = some status) := by
  induction ms with
  | nil =>
    intro g labels status h
    exact Or.inr ⟨by simp, h⟩
  | cons m rest ih =>
    intro g labels status h
    rw [setAll_cons] at h
    rcases ih _ labels status h with ⟨r, hr, h1, h2⟩ | ⟨hno, hg⟩
    · exact Or.inl ⟨r, List.mem_cons_of_mem _ hr, h1, h2⟩
    · by_cases hl : labels = m.Labels
      · simp only [WithSet_apply, hl, if_true, Option.some.injEq] at hg
        exact Or.inl ⟨m, List.mem_cons_self _ _, hl.symm, hg⟩
      · simp only [WithSet_apply, hl, if_false] at hg
        refine Or.inr ⟨?_, hg⟩
        intro r hr
        rcases List.mem_cons.mp hr with rfl | hr
        · exact fun e => hl e.symm
        · exact hno r hr

theorem setAll_of_mem (ms : List Metric) :
    ∀ (g : GaugeVec) (r : Metric), r ∈ ms →
      (∀ m ∈ ms, ∀ m' ∈ ms, m.Labels = m'.Labels → m = m') →
      setAll g ms r.Labels = some r.Status := by
  induction ms with
  | nil => intro g r hr; simp at hr
  | cons m rest ih =>
    intro g r hr hfun
    rw [setAll_cons]
    by_cases hex : ∃ r' ∈ rest, r'.Labels = r.Labels
    · obtain ⟨r', hr', hl⟩ := hex
      have heq : r' = r :=
        hfun r' (List.mem_cons_of_mem _ hr') r hr hl
      subst heq
      exact ih _ r' hr' (fun a ha b hb => hfun a (List.mem_cons_of_mem _ ha) b
        (List.mem_cons_of_mem _ hb))
    · have hrm : r = m := by
        rcases List.mem_cons.mp hr with h | h
        · exact h
        · exact absurd ⟨r, h, rfl⟩ hex
      subst hrm
      cases hv : setAll (GaugeVec.WithSet g r.Labels r.Status) rest r.Labels with
      | none =>
        have hcontra : ∀ (ms : List Metric) (g : GaugeVec) (l : PromLabels),
            g l ≠ none → setAll g ms l ≠ none := by
          intro ms
          induction ms with
          | nil => intro g l h; exact h
          | cons a as iha =>
            intro g l h
            rw [setAll_cons]
            apply iha
            simp only [WithSet_apply]
            split
            · simp
            · exact h
        exact absurd hv (hcontra rest _ _ (by simp [WithSet_apply]))
      | some v =>
        rcases setAll_some rest _ _ _ hv with ⟨r', hr', h1, _⟩ | ⟨_, hg⟩
        · exact absurd ⟨r', hr', h1⟩ hex
        · simp only [WithSet_apply, if_true, Option.some.injEq] at hg
          rw [hg]

/-- C6. For every prior published state and every cycle, after the image phase of
`RecordMetrics`: if `imageMetrics` returned at least one record, a label set is published
with a status exactly when this cycle returned the record with these labels and this
status (so nothing of the prior set stays unless this cycle produced it again); if it
returned no record, the published image set is the prior one. -/
theorem publishImages_exact (lib : VersionLib) (w : Cycle) (s : Published) :
    ((imageMetrics lib w.newCustom w.getImages s.counters).1 ≠ [] →
      ∀ labels status,
        (RecordMetricsCycle lib w s).imageVersionInfo labels = some status ↔
          ({ Labels := labels, Status := status } : Metric) ∈
            (imageMetrics lib w.newCustom w.getImages s.counters).1) ∧
    ((imageMetrics lib w.newCustom w.getImages s.counters).1 = [] →
      (RecordMetricsCycle lib w s).imageVersionInfo = s.imageVersionInfo) := by
  constructor
  · intro hne labels status
    have hpub : (RecordMetricsCycle lib w s).imageVersionInfo =
        setAll s.imageVersionInfo.Reset (imageMetrics lib w.newCustom w.getImages s.counters).1 := by
      simp only [RecordMetricsCycle, publishImages]
      rw [if_pos]
      simpa using hne
    rw [hpub]
    cases hgi : w.getImages with
    | error e => rw [hgi] at hne; simp [imageMetrics] at hne
    | ok images =>
      rw [imageMetrics_ok]
      constructor
      · intro h
        rcases setAll_some _ _ _ _ h with ⟨r, hr, h1, h2⟩ | ⟨_, hg⟩
        · have : r = { Labels := labels, Status := status } := by
            cases r
            simp only at h1 h2
            subst h1; subst h2
            rfl
          rw [← this]
          exact hr
        · simp [GaugeVec.Reset] at hg
      · intro h
        exact setAll_of_mem _ _ _ h
          (fun a ha b hb hl => records_functional lib w.newCustom images a b ha hb hl)
  · intro he
    simp only [RecordMetricsCycle, publishImages, he, List.length_nil, ne_eq,
      not_true_eq_false, if_false]

/-- C6 at a cycle with the images `nginx:1.20.0` and `nginx` on top of a prior set holding
`redis:5.0`: the record of `nginx:1.20.0` is published. -/
theorem publishImages_exact_witness :
    (RecordMetricsCycle sampleLib sampleCycle stalePublished).imageVersionInfo
      [("image", "nginx:1.20.0"), ("running_version", "1.20.0.0"),
       ("current_version", "1.21.0.0")] = some 1 :=
  ((publishImages_exact sampleLib sampleCycle stalePublished).1 (by decide) _ _).2 (by decide)

/-! ## C8: the cluster phase -/

/-- C8 as stated fails twice. When GitHub answers the release request with status 403 and
a JSON error body, the latest release is not obtained, yet the prior platform record is
dropped and a record with an empty current version is published. And with a library whose
normalisation is not idempotent, running and latest both `1`, the published record is
`1.0`, `1.0.0` with status `1`, while `compareVersions` on the two obtained strings gives
`1.0`, `1.0` and status `0`. -/
theorem cluster_phase_counterexample :
    (stalePublished.clusterVersionInfo
        [("running_version", "1.23.0.0"), ("current_version", "1.24.0.0")] = some 1 ∧
      (RecordMetricsCycle sampleLib rateLimitedCycle stalePublished).clusterVersionInfo
        [("running_version", "1.23.0.0"), ("current_version", "1.24.0.0")] = none ∧
      (RecordMetricsCycle sampleLib rateLimitedCycle stalePublished).clusterVersionInfo
        [("running_version", "1.24.3.0"), ("current_version", "")] = some 0) ∧
    (compareVersions appendLib "1" "1" = ("1.0", "1.0", 0) ∧
      (RecordMetricsCycle appendLib equalCycle stalePublished).clusterVersionInfo
        [("running_version", "1.0"), ("current_version", "1.0")] = none ∧
      (RecordMetricsCycle appendLib equalCycle stalePublished).clusterVersionInfo
        [("running_version", "1.0"), ("current_version", "1.0.0")] = some 1) := by
  refine ⟨⟨by decide, by decide, by decide⟩, by decide, by decide, by decide⟩

/-- C8, amended. For every prior platform set: if the running version cannot be obtained,
or the release request fails, or the body of its answer does not decode, the platform set
after the cluster phase is the prior one. If the running version is obtained and the
release request is answered with status 200 and a body that decodes to the tag `latest`,
the platform set holds exactly one record, labelled `running_version` and
`current_version` with the first two results of `compareVersions running (normalize
latest)` and valued with its third: the release tag is normalised once before
`compareVersions` normalises it again. Whenever normalising the tag twice gives what
normalising it once gives, these are the results of `compareVersions running latest`. -/
theorem publishCluster_exact (lib : VersionLib) (w : Cycle) (s : Published) :
    (((∃ e, w.getClusterVersion = .error e) ∨ (∃ e, w.httpDo = .error e) ∨
        (∃ res e, w.httpDo = .ok res ∧ res.decodeBody = .error e)) →
      (RecordMetricsCycle lib w s).clusterVersionInfo = s.clusterVersionInfo) ∧
    (∀ running res latest,
      w.getClusterVersion = .ok running → w.httpDo = .ok res → res.StatusCode = 200 →
      res.decodeBody = .ok { TagName := latest } →
      (∀ labels,
        (RecordMetricsCycle lib w s).clusterVersionInfo labels =
          if labels =
            [("running_version", (compareVersions lib running (lib.Normalize latest)).1),
             ("current_version", (compareVersions lib running (lib.Normalize latest)).2.1)]
          then some (compareVersions lib running (lib.Normalize latest)).2.2 else none) ∧
      (lib.Normalize (lib.Normalize latest) = lib.Normalize latest →
        compareVersions lib running (lib.Normalize latest) =
          compareVersions lib running latest)) := by
  constructor
  · rintro (⟨e, he⟩ | ⟨e, he⟩ | ⟨res, e, hres, he⟩)
    · simp [RecordMetricsCycle, clusterMetrics, publishCluster, he]
    · cases hr : w.getClusterVersion with
      | error e2 => simp [RecordMetricsCycle, clusterMetrics, publishCluster, hr]
      | ok r => simp [RecordMetricsCycle, clusterMetrics, publishCluster, hr, he]
    · cases hr : w.getClusterVersion with
      | error e2 => simp [RecordMetricsCycle, clusterMetrics, publishCluster, hr]
      | ok r => simp [RecordMetricsCycle, clusterMetrics, publishCluster, hr, hres, he]
  · intro running res latest hr hres _ hdec
    constructor
    · intro labels
      simp only [RecordMetricsCycle, clusterMetrics, publishCluster, hr, hres, hdec,
        WithSet_apply, GaugeVec.Reset]
    · intro hidem
      simp only [compareVersions, hidem]

/-- C8, amended, at the cycle where the platform runs `v1.24.3` and the latest release,
answered with status 200, is `v1.24.3`: the platform set holds the one record `1.24.3.0`,
`1.24.3.0` with status `0`, and the prior record is gone. -/
theorem publishCluster_exact_witness :
    (RecordMetricsCycle sampleLib sampleCycle stalePublished).clusterVersionInfo
        [("running_version", "1.24.3.0"), ("current_version", "1.24.3.0")] =
      (if ([("running_version", "1.24.3.0"), ("current_version", "1.24.3.0")] : PromLabels) =
          [("running_version",
              (compareVersions sampleLib "v1.24.3" (sampleLib.Normalize "v1.24.3")).1),
           ("current_version",
              (compareVersions sampleLib "v1.24.3" (sampleLib.Normalize "v1.24.3")).2.1)]
        then some (compareVersions sampleLib "v1.24.3" (sampleLib.Normalize "v1.24.3")).2.2
        else none) ∧
    (RecordMetricsCycle sampleLib sampleCycle stalePublished).clusterVersionInfo
        [("running_version", "1.24.3.0"), ("current_version", "1.24.3.0")] = some 0 ∧
    (RecordMetricsCycle sampleLib sampleCycle stalePublished).clusterVersionInfo
        [("running_version", "1.23.0.0"), ("current_version", "1.24.0.0")] = none :=
  ⟨((publishCluster_exact sampleLib sampleCycle stalePublished).2 "v1.24.3"
      ⟨200, .ok ⟨"v1.24.3"⟩⟩ "v1.24.3" rfl rfl rfl rfl).1 _,
   by decide, by decide⟩

/-! ## C9: end to end -/

/-- C9 as stated fails with a library that normalises the way go-version documents
(`1.0.0` to `1.0.0.0`): for the image `nginx:1.20.0` and the tags `1.19.0`, `1.20.0`,
`1.21.0` the one record carries the normalised versions `1.20.0.0` and `1.21.0.0`, not
`1.20.0` and `1.21.0`. The library sorts `1.21.0` last, ranks it above `1.20.0`, and its
normalisation is idempotent on the two tags. -/
theorem end_to_end_labels_counterexample :
    imageMetrics sampleLib nginxRegistry (.ok ["nginx:1.20.0"]) ⟨0, 0, 0⟩ =
      ([{ Labels := [("image", "nginx:1.20.0"), ("running_version", "1.20.0.0"),
                     ("current_version", "1.21.0.0")], Status := 1 }], ⟨1, 1, 0⟩) ∧
    (imageMetrics sampleLib nginxRegistry (.ok ["nginx:1.20.0"]) ⟨0, 0, 0⟩).1 ≠
      [{ Labels := [("image", "nginx:1.20.0"), ("running_version", "1.20.0"),
                    ("current_version", "1.21.0")], Status := 1 }] ∧
    sampleLib.versionSort ["1.19.0", "1.20.0", "1.21.0"] = ["1.19.0", "1.20.0", "1.21.0"] ∧
    sampleLib.Compare "1.21.0" "1.20.0" ">" = true ∧
    sampleLib.Normalize (sampleLib.Normalize "1.20.0") = sampleLib.Normalize "1.20.0" ∧
    sampleLib.Normalize (sampleLib.Normalize "1.21.0") = sampleLib.Normalize "1.21.0" := by
  refine ⟨by decide, by decide, by decide, by decide, by decide, by decide⟩

/-- C9, amended. For the image list `nginx:1.20.0` and a registry that returns the tags
`1.19.0`, `1.20.0`, `1.21.0` for the repository `library/nginx` of the default public
endpoint, `imageMetrics` produces exactly one record: its labels are the image
`nginx:1.20.0`, the running version `normalize 1.20.0` and the current version `normalize
latest`, where `latest` is the last tag after the library sort, and its status is `1`
exactly when the library ranks `normalize latest` above `normalize 1.20.0`. So when the
library sorts `1.21.0` last and ranks its normal form above that of `1.20.0`, the record
carries `normalize 1.20.0`, `normalize 1.21.0` and status `1`; and when the library also
leaves both tags unchanged, it is the record with `1.20.0` and `1.21.0`. -/
theorem end_to_end_record (lib : VersionLib) (newCustom : Registry) (hub : Hub)
    (c : Counters)
    (hreg : newCustom "https://registry-1.docker.io/" = .ok hub)
    (htags : hub "library/nginx" = .ok ["1.19.0", "1.20.0", "1.21.0"]) :
    (∃ latest, (lib.versionSort ["1.19.0", "1.20.0", "1.21.0"]).getLast? = some latest ∧
      imageMetrics lib newCustom (.ok ["nginx:1.20.0"]) c =
        ([{ Labels := [("image", "nginx:1.20.0"),
                       ("running_version", lib.Normalize "1.20.0"),
                       ("current_version", lib.Normalize latest)],
            Status := if lib.Compare (lib.Normalize latest) (lib.Normalize "1.20.0") ">"
                      then 1 else 0 }], ⟨1, 1, 0⟩)) ∧
    ((lib.versionSort ["1.19.0", "1.20.0", "1.21.0"]).getLast? = some "1.21.0" →
      lib.Compare (lib.Normalize "1.21.0") (lib.Normalize "1.20.0") ">" = true →
      imageMetrics lib newCustom (.ok ["nginx:1.20.0"]) c =
        ([{ Labels := [("image", "nginx:1.20.0"),
                       ("running_version", lib.Normalize "1.20.0"),
                       ("current_version", lib.Normalize "1.21.0")],
            Status := 1 }], ⟨1, 1, 0⟩)) ∧
    ((lib.versionSort ["1.19.0", "1.20.0", "1.21.0"]).getLast? = some "1.21.0" →
      lib.Normalize "1.20.0" = "1.20.0" → lib.Normalize "1.21.0" = "1.21.0" →
      lib.Compare "1.21.0" "1.20.0" ">" = true →
      imageMetrics lib newCustom (.ok ["nginx:1.20.0"]) c =
        ([{ Labels := [("image", "nginx:1.20.0"), ("running_version", "1.20.0"),
                       ("current_version", "1.21.0")], Status := 1 }], ⟨1, 1, 0⟩)) := by
  have hs : Split "nginx:1.20.0" ':' = ["nginx", "1.20.0"] := by decide
  have hrr : getRegAndRepo "nginx" = ("https://registry-1.docker.io/", "library/nginx") := by
    decide
  have hg : GetTags newCustom "nginx" = .ok ("1.19.0" :: ["1.20.0", "1.21.0"]) := by
    simp only [GetTags, hrr, hreg, htags]
    rfl
  obtain ⟨latest, hlast, hbody⟩ :=
    imageLoopBody_tags lib newCustom ([], ⟨1, 0, 0⟩) "nginx:1.20.0" "nginx" "1.20.0"
      "1.19.0" ["1.20.0", "1.21.0"] hs hg
  have hrec : imageMetrics lib newCustom (.ok ["nginx:1.20.0"]) c =
      ([{ Labels := [("image", "nginx:1.20.0"),
                     ("running_version", lib.Normalize "1.20.0"),
                     ("current_version", lib.Normalize latest)],
          Status := if lib.Compare (lib.Normalize latest) (lib.Normalize "1.20.0") ">"
                    then 1 else 0 }], ⟨1, 1, 0⟩) := by
    simp only [imageMetrics, List.foldl_cons, List.foldl_nil, List.length_singleton, hbody]
    by_cases hc : lib.Compare (lib.Normalize latest) (lib.Normalize "1.20.0") ">" = true
    · simp [compareVersions, hc]
    · simp [compareVersions, hc]
  refine ⟨⟨latest, hlast, hrec⟩, ?_, ?_⟩
  · intro h1 h2
    have hl : latest = "1.21.0" := by
      rw [hlast] at h1
      exact Option.some.inj h1
    rw [hrec, hl, h2]
    rfl
  · intro h1 h2 h3 h4
    have hl : latest = "1.21.0" := by
      rw [hlast] at h1
      exact Option.some.inj h1
    rw [hrec, hl, h2, h3, h4]
    rfl

/-- C9, amended, with the concrete library and registry: the library sorts `1.21.0` last
and ranks it above `1.20.0`, and the record carries the normalised `1.20.0.0` and
`1.21.0.0` with status `1`. -/
theorem end_to_end_record_witness :
    imageMetrics sampleLib nginxRegistry (.ok ["nginx:1.20.0"]) ⟨5, 5, 0⟩ =
      ([{ Labels := [("image", "nginx:1.20.0"),
                     ("running_version", sampleLib.Normalize "1.20.0"),
                     ("current_version", sampleLib.Normalize "1.21.0")],
          Status := 1 }], ⟨1, 1, 0⟩) ∧
    sampleLib.Normalize "1.20.0" = "1.20.0.0" ∧ sampleLib.Normalize "1.21.0" = "1.21.0.0" :=
  ⟨(end_to_end_record sampleLib nginxRegistry
      (fun repo =>
        if repo = "library/nginx" then .ok ["1.19.0", "1.20.0", "1.21.0"]
        else .error "repository unknown")
      ⟨5, 5, 0⟩ rfl rfl).2.1 (by decide) (by decide),
   by decide, by decide⟩

/-! ## C10: the states a scrape can meet during publication -/

theorem foldl_recordSteps (ms : List Metric) :
    ∀ a : GaugeVec, (ms.flatMap recordSteps).foldl VecStep.run a = setAll a ms := by
  induction ms with
  | nil => intro a; rfl
  | cons m rest ih =>
    intro a
    simp only [List.flatMap_cons, recordSteps, List.cons_append, List.nil_append,
      List.foldl_cons, setAll_cons]
    exact ih _

theorem getLast?_scanl {α β : Type} (f : β → α → β) (l : List α) :
    ∀ a : β, (List.scanl f a l).getLast? = some (l.foldl f a) := by
  induction l with
  | nil => intro a; rfl
  | cons x xs ih =>
    intro a
    simp only [List.scanl, List.foldl_cons]
    rw [List.getLast?_cons, ih]
    rfl

theorem mem_scanl_recordSteps (ms : List Metric) :
    ∀ (a g1 : GaugeVec),
      g1 ∈ List.scanl VecStep.run a (ms.flatMap recordSteps) ↔
        (∃ k, k ≤ ms.length ∧ g1 = setAll a (ms.take k)) ∨
        (∃ k r, ms[k]? = some r ∧ g1 = (setAll a (ms.take k)).With r.Labels) := by
  induction ms with
  | nil =>
    intro a g1
    simp [List.scanl, setAll]
  | cons m rest ih =>
    intro a g1
    have hscan : List.scanl VecStep.run a ((m :: rest).flatMap recordSteps) =
        a :: a.With m.Labels ::
          List.scanl VecStep.run (a.WithSet m.Labels m.Status) (rest.flatMap recordSteps) := rfl
    rw [hscan, List.mem_cons, List.mem_cons, ih]
    constructor
    · rintro (h | h | ⟨k, hk, h⟩ | ⟨k, r, hr, h⟩)
      · exact Or.inl ⟨0, Nat.zero_le _, h⟩
      · exact Or.inr ⟨0, m, List.getElem?_cons_zero, h⟩
      · exact Or.inl ⟨k + 1, Nat.succ_le_succ hk, h⟩
      · exact Or.inr ⟨k + 1, r, by simpa using hr, h⟩
    · rintro (⟨k, hk, h⟩ | ⟨k, r, hr, h⟩)
      · cases k with
        | zero => exact Or.inl h
        | succ k => exact Or.inr (Or.inr (Or.inl ⟨k, Nat.le_of_succ_le_succ hk, h⟩))
      · cases k with
        | zero =>
          have hm : m = r := by simpa using hr
          subst hm
          exact Or.inr (Or.inl h)
        | succ k => exact Or.inr (Or.inr (Or.inr ⟨k, r, by simpa using hr, h⟩))

/-- C10 as stated fails. While the two records of a new cycle replace a prior image set
holding `redis:5.0`, the set right after `Reset` is observable and is neither the prior
set nor the new one; the same holds for the platform set. -/
theorem atomic_replacement_counterexample :
    (∃ g ∈ imageObservable staleImages freshRecords,
      g ≠ staleImages ∧ g ≠ publishImages staleImages freshRecords) ∧
    (∃ g ∈ clusterObservable staleCluster (some freshCluster),
      g ≠ staleCluster ∧ g ≠ publishCluster staleCluster (some freshCluster)) := by
  constructor
  · refine ⟨staleImages.Reset, ?_, ?_, ?_⟩
    · exact List.mem_cons_of_mem _ (List.mem_cons_self _ _)
    · intro h
      exact absurd (congrFun h [("image", "redis:5.0"), ("running_version", "5.0.0.0"),
        ("current_version", "6.0.0.0")]) (by decide)
    · intro h
      exact absurd (congrFun h [("image", "nginx:1.20.0"), ("running_version", "1.20.0.0"),
        ("current_version", "1.21.0.0")]) (by decide)
  · refine ⟨staleCluster.Reset, ?_, ?_, ?_⟩
    · exact List.mem_cons_of_mem _ (List.mem_cons_self _ _)
    · intro h
      exact absurd (congrFun h [("running_version", "1.23.0.0"),
        ("current_version", "1.24.0.0")]) (by decide)
    · intro h
      exact absurd (congrFun h [("running_version", "1.24.3.0"),
        ("current_version", "1.24.3.0")]) (by decide)

/-- C10, amended. During the publication of the records `m :: ms` the observable image
sets are exactly: the prior set; for each `k` up to the number of records, the set built
from nothing by the first `k` records (empty for `k = 0`, the complete new set at the
end, which is what `publishImages` leaves); and, for each record, the set built by the
records before it in which `With` has registered the label set of that record and `Set`
has not stored its status yet. A label set held by a set built from the first `k` records
comes with its status from one of them; a label set held by a set with a registered
record belongs to a record of this cycle and comes with that record's status or with the
initial `0`; so no record of the prior set is mixed in. With no record nothing is
written. The platform set goes through the prior set, the empty set, the set holding the
new label set at `0`, and the set of the one new record. -/
theorem publication_states (g : GaugeVec) (m : Metric) (ms : List Metric) :
    (∀ g1 : GaugeVec, g1 ∈ imageObservable g (m :: ms) ↔
      g1 = g ∨
      (∃ k, k ≤ (m :: ms).length ∧ g1 = setAll g.Reset ((m :: ms).take k)) ∨
      (∃ k r, (m :: ms)[k]? = some r ∧
        g1 = (setAll g.Reset ((m :: ms).take k)).With r.Labels)) ∧
    (∀ k labels status, setAll g.Reset ((m :: ms).take k) labels = some status →
      ∃ r ∈ (m :: ms).take k, r.Labels = labels ∧ r.Status = status) ∧
    (∀ k r labels status, (m :: ms)[k]? = some r →
      (setAll g.Reset ((m :: ms).take k)).With r.Labels labels = some status →
      ∃ r2 ∈ m :: ms, r2.Labels = labels ∧ (status = r2.Status ∨ status = 0)) ∧
    setAll g.Reset ((m :: ms).take 0) = (fun _ => none) ∧
    setAll g.Reset ((m :: ms).take (m :: ms).length) = publishImages g (m :: ms) ∧
    (imageObservable g (m :: ms)).getLast? = some (publishImages g (m :: ms)) ∧
    imageObservable g [] = [g] ∧
    publishImages g [] = g ∧
    clusterObservable g (some m) =
      [g, fun _ => none, GaugeVec.Set (fun _ => none) m.Labels 0,
       publishCluster g (some m)] ∧
    clusterObservable g none = [g] ∧
    publishCluster g none = g := by
  have hobs : imageObservable g (m :: ms) =
      g :: List.scanl VecStep.run g.Reset ((m :: ms).flatMap recordSteps) := by
    simp [imageObservable]
  have hsome : ∀ k labels status, setAll g.Reset ((m :: ms).take k) labels = some status →
      ∃ r ∈ (m :: ms).take k, r.Labels = labels ∧ r.Status = status := by
    intro k labels status h
    rcases setAll_some _ _ _ _ h with hr | ⟨_, hg⟩
    · exact hr
    · simp [GaugeVec.Reset] at hg
  refine ⟨?_, hsome, ?_, rfl, ?_, ?_, rfl, rfl, rfl, rfl, rfl⟩
  · intro g1
    rw [hobs, List.mem_cons, mem_scanl_recordSteps]
  · intro k r labels status hr h
    have hrmem : r ∈ m :: ms := List.getElem?_mem hr
    by_cases hl : labels = r.Labels
    · simp only [GaugeVec.With, hl, if_true, Option.some.injEq] at h
      cases hv : setAll g.Reset ((m :: ms).take k) r.Labels with
      | none =>
        rw [hv] at h
        exact ⟨r, hrmem, hl.symm, Or.inr (by simpa using h.symm)⟩
      | some v =>
        rw [hv] at h
        obtain ⟨r2, hr2, h1, h2⟩ := hsome k r.Labels v hv
        refine ⟨r2, List.mem_of_mem_take hr2, by rw [h1, hl], Or.inl ?_⟩
        rw [h2]
        simpa using h.symm
    · simp only [GaugeVec.With, hl, if_false] at h
      obtain ⟨r2, hr2, h1, h2⟩ := hsome k labels status h
      exact ⟨r2, List.mem_of_mem_take hr2, h1, Or.inl h2.symm⟩
  · simp [publishImages]
  · rw [hobs, List.getLast?_cons, getLast?_scanl, foldl_recordSteps]
    simp [publishImages]

/-- C10, amended, at the prior set holding `redis:5.0` and the two records of the new
cycle: the set in which the first record is registered and not yet stored is observable;
it holds the label set of that record with the value `0`, where the record has status
`1`, and it holds nothing for the prior label set. -/
theorem publication_states_witness :
    GaugeVec.With (setAll staleImages.Reset (freshRecords.take 0))
        [("image", "nginx:1.20.0"), ("running_version", "1.20.0.0"),
         ("current_version", "1.21.0.0")] ∈ imageObservable staleImages freshRecords ∧
    GaugeVec.With (setAll staleImages.Reset (freshRecords.take 0))
        [("image", "nginx:1.20.0"), ("running_version", "1.20.0.0"),
         ("current_version", "1.21.0.0")]
      [("image", "nginx:1.20.0"), ("running_version", "1.20.0.0"),
       ("current_version", "1.21.0.0")] = some 0 ∧
    GaugeVec.With (setAll staleImages.Reset (freshRecords.take 0))
        [("image", "nginx:1.20.0"), ("running_version", "1.20.0.0"),
         ("current_version", "1.21.0.0")]
      [("image", "redis:5.0"), ("running_version", "5.0.0.0"),
       ("current_version", "6.0.0.0")] = none :=
  ⟨((publication_states staleImages
      { Labels := [("image", "nginx:1.20.0"), ("running_version", "1.20.0.0"),
                   ("current_version", "1.21.0.0")], Status := 1 }
      [{ Labels := [("image", "myorg/myimage:2.0"), ("running_version", "2.0.0.0"),
                    ("current_version", "2.0.0.0")], Status := 0 }]).1 _).2
      (Or.inr (Or.inr ⟨0, _, List.getElem?_cons_zero, rfl⟩)),
   by decide, by decide⟩

end KubeVersion
